import Mathlib

/-!
Verification of the Bollinger-band crossing alert bot (`src/bb_cross_bot.py`).

Modelling conventions:
* float prices are real numbers; a pandas NaN entry is `Option.none`;
* the sqlite `alerts` table with `PRIMARY KEY(symbol, bar_ts, signal)` is a
  list of triples in insertion order, `INSERT OR IGNORE` is insert-if-absent;
* bar timestamps enter the model already rendered as their ISO key strings;
* the two network effects (`yf.download`, `requests.post`) enter as explicit
  parameters: the fetched bars are an argument, the webhook POST outcome is a
  boolean argument, and a raised exception in per-symbol processing is an
  `Except` result in the main loop model.
-/

namespace BBBot

/-- The signal kinds the bot can report: the two strict crossings from
`detect_cross` and the two loose-mode classifications. -/
inductive Signal
  | CROSS_ABOVE
  | CROSS_BELOW
  | OUTSIDE_ABOVE
  | OUTSIDE_BELOW
  deriving DecidableEq, Repr

/-- One row of the sqlite `alerts` table: (symbol, bar_ts, signal). -/
abbrev Entry := String × String × Signal

/-- The `alerts` table, rows in insertion order.  The sqlite primary key
keeps each triple unique, so reachable ledgers hold a triple at most once. -/
abbrev Ledger := List Entry

/-- Model of `already_sent` (src lines 75-79): `SELECT 1 FROM alerts WHERE symbol=? AND
bar_ts=? AND signal=?` — membership of the exact triple. -/
def already_sent (conn : Ledger) (symbol bar_ts : String) (signal : Signal) : Bool :=
  conn.contains (symbol, bar_ts, signal)

/-- Model of `mark_sent` (src lines 81-84): `INSERT OR IGNORE`, an insert-if-absent
against the primary key (symbol, bar_ts, signal). -/
def mark_sent (conn : Ledger) (symbol bar_ts : String) (signal : Signal) : Ledger :=
  if (symbol, bar_ts, signal) ∈ conn then conn else conn ++ [(symbol, bar_ts, signal)]

/-- Model of `detect_cross` (src lines 94-101).  The `pd.notna` guards are the `some`
matches; a NaN band value is `none`.  `CROSS_ABOVE` is checked first. -/
noncomputable def detect_cross (prev_close : ℝ) (prev_upper prev_lower : Option ℝ)
    (cur_close : ℝ) (cur_upper cur_lower : Option ℝ) : Option Signal :=
  let cross_above : Bool :=
    match prev_upper, cur_upper with
    | some pu, some cu => decide (prev_close ≤ pu) && decide (cur_close > cu)
    | _, _ => false
  let cross_below : Bool :=
    match prev_lower, cur_lower with
    | some pl, some cl => decide (prev_close ≥ pl) && decide (cur_close < cl)
    | _, _ => false
  if cross_above then some Signal.CROSS_ABOVE
  else if cross_below then some Signal.CROSS_BELOW
  else none

/-- The trailing window that pandas `rolling(length)` sees at index `i`:
the elements at indices `i+1-length` through `i`. -/
def window (close : List ℝ) (length i : Nat) : List ℝ :=
  (close.take (i + 1)).drop (i + 1 - length)

/-- Mean of a full window, pandas `.mean()`. -/
noncomputable def listMean (xs : List ℝ) : ℝ := xs.sum / xs.length

/-- Population variance of a window: the square of pandas `.std(ddof=0)`. -/
noncomputable def listVarPop (xs : List ℝ) : ℝ :=
  ((xs.map fun x => (x - listMean xs) ^ 2).sum) / xs.length

/-- Population standard deviation, pandas `.std(ddof=0)` ("Pine-like"). -/
noncomputable def listStdPop (xs : List ℝ) : ℝ := Real.sqrt (listVarPop xs)

/-- Model of `close.rolling(length, min_periods=length).mean()` (src line 88): NaN
(`none`) until the trailing window holds `length` values. -/
noncomputable def rollingMean (close : List ℝ) (length : Nat) : List (Option ℝ) :=
  (List.range close.length).map fun i =>
    if length ≤ i + 1 then some (listMean (window close length i)) else none

/-- Model of `close.rolling(length, min_periods=length).std(ddof=0)` (src line 89). -/
noncomputable def rollingStd (close : List ℝ) (length : Nat) : List (Option ℝ) :=
  (List.range close.length).map fun i =>
    if length ≤ i + 1 then some (listStdPop (window close length i)) else none

/-- Model of `compute_bb` (src lines 87-92): basis, upper and lower series.  NaN
propagates through the pandas series arithmetic, hence the `Option` zips. -/
noncomputable def compute_bb (close : List ℝ) (length : Nat) (mult : ℝ) :
    List (Option ℝ) × List (Option ℝ) × List (Option ℝ) :=
  let basis := rollingMean close length
  let stdev := rollingStd close length
  let upper := List.zipWith (fun b s =>
    match b, s with
    | some b, some s => some (b + mult * s)
    | _, _ => none) basis stdev
  let lower := List.zipWith (fun b s =>
    match b, s with
    | some b, some s => some (b - mult * s)
    | _, _ => none) basis stdev
  (basis, upper, lower)

/-- One row of the dataframe after `df.assign(Basis=..., Upper=..., Lower=...)`
(src line 141): timestamp, Close, and the three band columns (possibly NaN). -/
structure RawRow where
  ts : String
  close : ℝ
  basis : Option ℝ
  upper : Option ℝ
  lower : Option ℝ

/-- One row surviving `dropna(subset=["Basis","Upper","Lower"])`. -/
structure BRow where
  ts : String
  close : ℝ
  basis : ℝ
  upper : ℝ
  lower : ℝ

instance : Inhabited BRow := ⟨⟨"", 0, 0, 0, 0⟩⟩

/-- Model of `df.assign(Basis=basis, Upper=upper, Lower=lower)` (src line 141): the
bars zipped positionally with the three band series of `compute_bb`. -/
noncomputable def assign_bands (bars : List (String × ℝ)) (length : Nat) (mult : ℝ) :
    List RawRow :=
  let bul := compute_bb (bars.map Prod.snd) length mult
  List.zipWith (fun bar v => ⟨bar.1, bar.2, v.1, v.2.1, v.2.2⟩)
    bars (bul.1.zip (bul.2.1.zip bul.2.2))

/-- Model of `dropna(subset=["Basis","Upper","Lower"])` (src line 141): keep the rows
whose three band values are all defined. -/
def dropna (rows : List RawRow) : List BRow :=
  rows.filterMap fun r =>
    match r.basis, r.upper, r.lower with
    | some b, some u, some l => some ⟨r.ts, r.close, b, u, l⟩
    | _, _, _ => none

/-- One iteration of the backfill loop body (src lines 151-155): a detected
crossing overwrites the accumulated (signal, timestamp). -/
noncomputable def backfill_step (acc : Option (Signal × String)) (prev cur : BRow) :
    Option (Signal × String) :=
  match detect_cross prev.close (some prev.upper) (some prev.lower)
      cur.close (some cur.upper) (some cur.lower) with
  | some sig => some (sig, cur.ts)
  | none => acc

/-- The backfill loop `for i in range(1, len(sub))` (src lines 150-155),
walking consecutive row pairs in time order. -/
noncomputable def backfill_aux :
    Option (Signal × String) → List BRow → Option (Signal × String)
  | acc, prev :: cur :: rest => backfill_aux (backfill_step acc prev cur) (cur :: rest)
  | acc, _ => acc

/-- The backfill diagnostic scan (src lines 148-159): fold over consecutive
pairs starting from no signal; the latest qualifying crossing wins. -/
noncomputable def backfill_scan (sub : List BRow) : Option (Signal × String) :=
  backfill_aux none sub

/-- Model of `df.tail(n)`: the last `n` rows. -/
def tail_n (l : List BRow) (n : Nat) : List BRow := l.drop (l.length - n)

/-- The live classification of the last two defined-band rows
(src lines 164-169): strict `detect_cross`, then the loose-mode fallback
`cur.Close > cur.Upper` / `cur.Close < cur.Lower`. -/
noncomputable def live_signal (prev cur : BRow) (loose_mode : Bool) : Option Signal :=
  match detect_cross prev.close (some prev.upper) (some prev.lower)
      cur.close (some cur.upper) (some cur.lower) with
  | some s => some s
  | none =>
    if loose_mode then
      if cur.close > cur.upper then some Signal.OUTSIDE_ABOVE
      else if cur.close < cur.lower then some Signal.OUTSIDE_BELOW
      else none
    else none

/-- Model of `send_discord` (src lines 108-117): in dry-run mode it prints the payload
and returns `True` without any POST; otherwise the webhook status decides. -/
def send_discord (dry_run webhook_ok : Bool) : Bool :=
  if dry_run then true else webhook_ok

/-- What one `process_symbol` call did, as observable from its prints,
returns and ledger effect. -/
inductive Outcome
  | noData
  | insufficientBars
  | noSignal
  | duplicate (sig : Signal) (bar_ts : String)
  | deliveryFailed (sig : Signal) (bar_ts : String)
  | sent (sig : Signal) (bar_ts : String)
  deriving DecidableEq, Repr

/-- Result of one `process_symbol` call: the ledger afterwards, the outcome,
and what the backfill diagnostic logged (read-only report). -/
structure ProcessResult where
  ledger : Ledger
  outcome : Outcome
  backfill_report : Option (Signal × String)
  deriving Repr

/-- Model of `process_symbol` (src lines 133-195): band computation, dropna, the
optional backfill diagnostic, live detection on the last two rows, loose
mode, dedup check, delivery, and the ledger write on confirmed delivery. -/
noncomputable def process_symbol (conn : Ledger) (symbol : String)
    (bars : List (String × ℝ)) (bb_length : Nat) (bb_mult : ℝ)
    (backfill_lookback : Nat) (loose_mode dry_run webhook_ok : Bool) :
    ProcessResult :=
  if bars.isEmpty then ⟨conn, .noData, none⟩
  else
    let df := dropna (assign_bands bars bb_length bb_mult)
    if df.length < 2 then ⟨conn, .insufficientBars, none⟩
    else
      let bf := if 0 < backfill_lookback then
          backfill_scan (tail_n df (max 2 backfill_lookback))
        else none
      let prev := df.getD (df.length - 2) default
      let cur := df.getD (df.length - 1) default
      match live_signal prev cur loose_mode with
      | none => ⟨conn, .noSignal, bf⟩
      | some sig =>
        if already_sent conn symbol cur.ts sig then
          ⟨conn, .duplicate sig cur.ts, bf⟩
        else if send_discord dry_run webhook_ok then
          ⟨mark_sent conn symbol cur.ts sig, .sent sig cur.ts, bf⟩
        else
          ⟨conn, .deliveryFailed sig cur.ts, bf⟩

/-- The per-symbol loop of `main` (src lines 201-206).  Each symbol's
processing may raise (modelled as `Except`: `step` is `process_symbol`
together with everything inside it that can throw); an exception is printed
and the loop continues with the ledger unchanged.  Returns the final ledger
and, per symbol in order, `none` for a normal return or the logged error. -/
def main_loop (step : Ledger → String → Except String Ledger) :
    Ledger → List String → Ledger × List (String × Option String)
  | conn, [] => (conn, [])
  | conn, sym :: rest =>
    match step conn sym with
    | .ok conn2 =>
      let r := main_loop step conn2 rest
      (r.1, (sym, none) :: r.2)
    | .error e =>
      let r := main_loop step conn rest
      (r.1, (sym, some e) :: r.2)

/-! ## Claim C1: strict crossing detection -/

/-- C1: for every pair of banded bars with defined (non-NaN) band values
(the current bar's bands not inverted, as `compute_bb` with `M > 0`
guarantees), `detect_cross` returns `CROSS_ABOVE` exactly when
`prev.close ≤ prev.upper` and `cur.close > cur.upper`, returns `CROSS_BELOW`
exactly when `prev.close ≥ prev.lower` and `cur.close < cur.lower`, and
returns no event exactly when neither condition holds. -/
theorem detect_cross_strict_spec (pc pu pl cc cu cl : ℝ) (hband : cl ≤ cu) :
    (detect_cross pc (some pu) (some pl) cc (some cu) (some cl) = some Signal.CROSS_ABOVE
      ↔ (pc ≤ pu ∧ cc > cu))
    ∧ (detect_cross pc (some pu) (some pl) cc (some cu) (some cl) = some Signal.CROSS_BELOW
      ↔ (pc ≥ pl ∧ cc < cl))
    ∧ (detect_cross pc (some pu) (some pl) cc (some cu) (some cl) = none
      ↔ (¬(pc ≤ pu ∧ cc > cu) ∧ ¬(pc ≥ pl ∧ cc < cl))) := by
  by_cases h1 : pc ≤ pu <;> by_cases h2 : cc > cu <;>
    by_cases h3 : pc ≥ pl <;> by_cases h4 : cc < cl <;>
      simp [detect_cross, h1, h2, h3, h4] <;> linarith

/-- C1 witness: a concrete upward crossing, prev at the band, cur above it. -/
theorem detect_cross_strict_spec_witness :
    ((0:ℝ) ≤ 1)
    ∧ ((detect_cross (0:ℝ) (some 0) (some 0) 2 (some 1) (some 0) = some Signal.CROSS_ABOVE
        ↔ ((0:ℝ) ≤ 0 ∧ (2:ℝ) > 1))
      ∧ (detect_cross (0:ℝ) (some 0) (some 0) 2 (some 1) (some 0) = some Signal.CROSS_BELOW
        ↔ ((0:ℝ) ≥ 0 ∧ (2:ℝ) < 0))
      ∧ (detect_cross (0:ℝ) (some 0) (some 0) 2 (some 1) (some 0) = none
        ↔ (¬((0:ℝ) ≤ 0 ∧ (2:ℝ) > 1) ∧ ¬((0:ℝ) ≥ 0 ∧ (2:ℝ) < 0)))) :=
  ⟨by norm_num, detect_cross_strict_spec 0 0 0 2 1 0 (by norm_num)⟩

/-! ## Claim C3: dedup ledger idempotence -/

/-- A `mark_sent` whose triple is already present is the identity
(`INSERT OR IGNORE` hits the primary key). -/
theorem mark_sent_of_mem (conn : Ledger) (s t : String) (k : Signal)
    (h : (s, t, k) ∈ conn) : mark_sent conn s t k = conn := by
  unfold mark_sent
  rw [if_pos h]

/-- C3: on any ledger satisfying the primary-key invariant (the triple occurs
at most once), recording the same triple twice leaves exactly one entry for
it, the second record is a no-op rather than an error, and `already_sent`
answers true after either record call. -/
theorem dedup_record_idempotent (conn : Ledger) (symbol bar_ts : String) (sig : Signal)
    (hpk : conn.count (symbol, bar_ts, sig) ≤ 1) :
    (mark_sent (mark_sent conn symbol bar_ts sig) symbol bar_ts sig).count
        (symbol, bar_ts, sig) = 1
    ∧ mark_sent (mark_sent conn symbol bar_ts sig) symbol bar_ts sig
        = mark_sent conn symbol bar_ts sig
    ∧ already_sent (mark_sent conn symbol bar_ts sig) symbol bar_ts sig = true := by
  have hmem : (symbol, bar_ts, sig) ∈ mark_sent conn symbol bar_ts sig := by
    unfold mark_sent
    split
    · assumption
    · simp
  have hnoop : mark_sent (mark_sent conn symbol bar_ts sig) symbol bar_ts sig
      = mark_sent conn symbol bar_ts sig :=
    mark_sent_of_mem _ _ _ _ hmem
  refine ⟨?_, hnoop, ?_⟩
  · rw [hnoop]
    unfold mark_sent
    split
    · rename_i hin
      have h1 : 0 < conn.count (symbol, bar_ts, sig) := List.count_pos_iff.mpr hin
      omega
    · rename_i hout
      rw [List.count_append, List.count_eq_zero.mpr hout]
      simp
  · simpa [already_sent] using hmem

/-- C3 witness: the empty ledger and a concrete triple. -/
theorem dedup_record_idempotent_witness :
    (([] : Ledger).count ("AAPL", "2024-01-02T10:00:00+00:00", Signal.CROSS_ABOVE) ≤ 1)
    ∧ ((mark_sent (mark_sent [] "AAPL" "2024-01-02T10:00:00+00:00" Signal.CROSS_ABOVE)
          "AAPL" "2024-01-02T10:00:00+00:00" Signal.CROSS_ABOVE).count
        ("AAPL", "2024-01-02T10:00:00+00:00", Signal.CROSS_ABOVE) = 1
      ∧ mark_sent (mark_sent [] "AAPL" "2024-01-02T10:00:00+00:00" Signal.CROSS_ABOVE)
          "AAPL" "2024-01-02T10:00:00+00:00" Signal.CROSS_ABOVE
        = mark_sent [] "AAPL" "2024-01-02T10:00:00+00:00" Signal.CROSS_ABOVE
      ∧ already_sent (mark_sent [] "AAPL" "2024-01-02T10:00:00+00:00" Signal.CROSS_ABOVE)
          "AAPL" "2024-01-02T10:00:00+00:00" Signal.CROSS_ABOVE = true) :=
  ⟨by simp, dedup_record_idempotent [] "AAPL" "2024-01-02T10:00:00+00:00"
    Signal.CROSS_ABOVE (by simp)⟩

/-! ## Claim C6: loose mode classification -/

/-- C6: on the latest pair, when the strict detector finds nothing and the
current bar's bands are not inverted: with loose mode on, the classification
is `OUTSIDE_ABOVE` exactly when `cur.close > cur.upper` and `OUTSIDE_BELOW`
exactly when `cur.close < cur.lower` (independent of `prev`); with loose mode
off, no signal is produced. -/
theorem loose_mode_spec (prev cur : BRow) (hband : cur.lower ≤ cur.upper)
    (hstrict : detect_cross prev.close (some prev.upper) (some prev.lower)
        cur.close (some cur.upper) (some cur.lower) = none) :
    (live_signal prev cur true = some Signal.OUTSIDE_ABOVE ↔ cur.close > cur.upper)
    ∧ (live_signal prev cur true = some Signal.OUTSIDE_BELOW ↔ cur.close < cur.lower)
    ∧ live_signal prev cur false = none := by
  unfold live_signal
  rw [hstrict]
  by_cases h1 : cur.close > cur.upper <;> by_cases h2 : cur.close < cur.lower <;>
    simp [h1, h2] <;> linarith

/-- C6 witness: a bar strictly inside its bands, so neither the strict nor
the loose classification fires. -/
theorem loose_mode_spec_witness :
    ((⟨"t", 0, 0, 1, -1⟩ : BRow).lower ≤ (⟨"t", 0, 0, 1, -1⟩ : BRow).upper
      ∧ detect_cross (⟨"t", 0, 0, 1, -1⟩ : BRow).close (some (⟨"t", 0, 0, 1, -1⟩ : BRow).upper)
          (some (⟨"t", 0, 0, 1, -1⟩ : BRow).lower) (⟨"t", 0, 0, 1, -1⟩ : BRow).close
          (some (⟨"t", 0, 0, 1, -1⟩ : BRow).upper) (some (⟨"t", 0, 0, 1, -1⟩ : BRow).lower) = none)
    ∧ ((live_signal ⟨"t", 0, 0, 1, -1⟩ ⟨"t", 0, 0, 1, -1⟩ true = some Signal.OUTSIDE_ABOVE
        ↔ (⟨"t", 0, 0, 1, -1⟩ : BRow).close > (⟨"t", 0, 0, 1, -1⟩ : BRow).upper)
      ∧ (live_signal ⟨"t", 0, 0, 1, -1⟩ ⟨"t", 0, 0, 1, -1⟩ true = some Signal.OUTSIDE_BELOW
        ↔ (⟨"t", 0, 0, 1, -1⟩ : BRow).close < (⟨"t", 0, 0, 1, -1⟩ : BRow).lower)
      ∧ live_signal ⟨"t", 0, 0, 1, -1⟩ ⟨"t", 0, 0, 1, -1⟩ false = none) :=
  ⟨⟨by norm_num, by norm_num [detect_cross]⟩,
    loose_mode_spec ⟨"t", 0, 0, 1, -1⟩ ⟨"t", 0, 0, 1, -1⟩ (by norm_num)
      (by norm_num [detect_cross])⟩

/-! ## Claim C7: failure containment in the main loop -/

/-- C7: the per-symbol loop of `main` gives every instrument of the list an
outcome, in order, whatever errors the per-symbol step raises; and a step
that raises on one instrument is logged and leaves the ledger unchanged for
the remaining instruments. -/
theorem main_loop_error_containment (step : Ledger → String → Except String Ledger)
    (conn : Ledger) (syms : List String) :
    ((main_loop step conn syms).2.map Prod.fst = syms)
    ∧ ∀ sym rest e, step conn sym = .error e →
        main_loop step conn (sym :: rest)
          = ((main_loop step conn rest).1, (sym, some e) :: (main_loop step conn rest).2) := by
  constructor
  · induction syms generalizing conn with
    | nil => simp [main_loop]
    | cons s rest ih =>
      cases h : step conn s <;> simp [main_loop, h, ih]
  · intro sym rest e he
    simp [main_loop, he]

/-! ## Claim C10: dry-run still records the ledger -/

/-- C10: `send_discord` reports success in dry-run mode regardless of the
webhook (no POST is attempted), so a dry run behaves on the ledger exactly
as a run with a successful real delivery. -/
theorem dry_run_spec :
    (∀ webhook_ok, send_discord true webhook_ok = true)
    ∧ ∀ conn symbol bars bb_length bb_mult bl loose webhook_ok,
        process_symbol conn symbol bars bb_length bb_mult bl loose true webhook_ok
          = process_symbol conn symbol bars bb_length bb_mult bl loose false true := by
  refine ⟨fun _ => rfl, ?_⟩
  intro conn symbol bars bb_length bb_mult bl loose webhook_ok
  rfl

/-! ## Claim C4: the ledger write is gated on confirmed delivery -/

/-- C4: in `process_symbol`, the dedup ledger is written exactly for a
detected, non-duplicate signal whose delivery reports success; a failed
delivery (and every non-`sent` outcome) leaves the ledger unchanged, so the
same bar/kind event is re-attempted on the next run. -/
theorem delivery_gates_ledger_write (conn : Ledger) (symbol : String)
    (bars : List (String × ℝ)) (bb_length : Nat) (bb_mult : ℝ)
    (bl : Nat) (loose dry wok : Bool) :
    (send_discord dry wok = false →
      (process_symbol conn symbol bars bb_length bb_mult bl loose dry wok).ledger = conn)
    ∧ (∀ sig ts,
        (process_symbol conn symbol bars bb_length bb_mult bl loose dry wok).outcome
            = Outcome.sent sig ts →
          send_discord dry wok = true
          ∧ already_sent conn symbol ts sig = false
          ∧ (process_symbol conn symbol bars bb_length bb_mult bl loose dry wok).ledger
              = mark_sent conn symbol ts sig)
    ∧ (∀ sig ts,
        (process_symbol conn symbol bars bb_length bb_mult bl loose dry wok).outcome
            = Outcome.deliveryFailed sig ts →
          send_discord dry wok = false
          ∧ already_sent conn symbol ts sig = false
          ∧ (process_symbol conn symbol bars bb_length bb_mult bl loose dry wok).ledger = conn)
    ∧ ((∀ sig ts,
        (process_symbol conn symbol bars bb_length bb_mult bl loose dry wok).outcome
            ≠ Outcome.sent sig ts) →
      (process_symbol conn symbol bars bb_length bb_mult bl loose dry wok).ledger = conn) := by
  simp only [process_symbol]
  split
  · simp
  · split
    · simp
    · split
      · simp
      · rename_i sig hsig
        split
        · rename_i hdup
          refine ⟨fun _ => rfl, ?_, ?_, fun _ => rfl⟩ <;> intro sig' ts' h <;> simp at h
        · split
          · rename_i hdup hsend
            refine ⟨?_, ?_, ?_, ?_⟩
            · intro hfail
              rw [hsend] at hfail
              exact absurd hfail (by simp)
            · intro sig' ts' h
              rw [Outcome.sent.injEq] at h
              obtain ⟨h1, h2⟩ := h
              subst h1; subst h2
              exact ⟨hsend, by simpa using hdup, rfl⟩
            · intro sig' ts' h
              simp at h
            · intro h
              exact absurd rfl (h _ _)
          · rename_i hdup hsend
            refine ⟨fun _ => rfl, ?_, ?_, fun _ => rfl⟩
            · intro sig' ts' h
              simp at h
            · intro sig' ts' h
              rw [Outcome.deliveryFailed.injEq] at h
              obtain ⟨h1, h2⟩ := h
              subst h1; subst h2
              exact ⟨by simpa using hsend, by simpa using hdup, rfl⟩

/-! ## Claim C8: the backfill scan is a read-only report of the latest crossing -/

/-- One `backfill_step` is an overwrite: the pair's own detection result if any,
otherwise the accumulator. -/
theorem backfill_step_eq (acc : Option (Signal × String)) (prev cur : BRow) :
    backfill_step acc prev cur =
      ((detect_cross prev.close (some prev.upper) (some prev.lower)
          cur.close (some cur.upper) (some cur.lower)).map fun s => (s, cur.ts)).or acc := by
  unfold backfill_step
  split <;> simp_all

/-- The backfill loop over consecutive pairs equals the last qualifying
pair's result, falling back to the accumulator. -/
theorem backfill_aux_or (acc : Option (Signal × String)) (l : List BRow) :
    backfill_aux acc l =
      ((l.zip l.tail).reverse.findSome? fun pc =>
        (detect_cross pc.1.close (some pc.1.upper) (some pc.1.lower)
            pc.2.close (some pc.2.upper) (some pc.2.lower)).map fun s => (s, pc.2.ts)).or acc := by
  induction l generalizing acc with
  | nil => simp [backfill_aux]
  | cons a l ih =>
    cases l with
    | nil => simp [backfill_aux]
    | cons b rest =>
      rw [show backfill_aux acc (a :: b :: rest)
          = backfill_aux (backfill_step acc a b) (b :: rest) from rfl]
      rw [ih, backfill_step_eq]
      simp only [List.zip_cons_cons, List.tail_cons, List.reverse_cons,
        List.findSome?_append, List.findSome?_cons, List.findSome?_nil]
      cases detect_cross a.close (some a.upper) (some a.lower) b.close (some b.upper)
          (some b.lower) <;> simp [Option.or_assoc]

/-- C8: the backfill scan walks consecutive pairs in time order and keeps
only the most recent qualifying crossing (the first hit of the reversed pair
list), a single optional result; and the scan is a read-only diagnostic: the
ledger and the outcome (hence any notification) of `process_symbol` do not
depend on the backfill lookback at all. -/
theorem backfill_scan_spec :
    (∀ sub : List BRow,
      backfill_scan sub =
        (sub.zip sub.tail).reverse.findSome? fun pc =>
          (detect_cross pc.1.close (some pc.1.upper) (some pc.1.lower)
              pc.2.close (some pc.2.upper) (some pc.2.lower)).map fun s => (s, pc.2.ts))
    ∧ ∀ conn symbol bars bb_length bb_mult bl loose dry wok,
        (process_symbol conn symbol bars bb_length bb_mult bl loose dry wok).ledger
          = (process_symbol conn symbol bars bb_length bb_mult 0 loose dry wok).ledger
        ∧ (process_symbol conn symbol bars bb_length bb_mult bl loose dry wok).outcome
          = (process_symbol conn symbol bars bb_length bb_mult 0 loose dry wok).outcome := by
  constructor
  · intro sub
    rw [backfill_scan, backfill_aux_or]
    simp
  · intro conn symbol bars bb_length bb_mult bl loose dry wok
    simp only [process_symbol]
    split
    · exact ⟨rfl, rfl⟩
    · split
      · exact ⟨rfl, rfl⟩
      · split <;> rename_i hsig
        · exact ⟨rfl, rfl⟩
        · split
          · exact ⟨rfl, rfl⟩
          · split <;> exact ⟨rfl, rfl⟩

/-! ## Claim C2: the rolling band formulas -/

/-- Spec-side formula (claim C2's wording): the arithmetic mean of the
trailing `L` closes, bars `[i-L+1, i]`. -/
noncomputable def specMean (close : List ℝ) (L i : Nat) : ℝ :=
  (((List.range L).map fun j => close.getD (i + 1 - L + j) 0).sum) / (L : ℝ)

/-- Spec-side formula (claim C2's wording): the population standard deviation
(divide by `L`, not `L-1`) over the same trailing window. -/
noncomputable def specStd (close : List ℝ) (L i : Nat) : ℝ :=
  Real.sqrt ((((List.range L).map fun j =>
    (close.getD (i + 1 - L + j) 0 - specMean close L i) ^ 2).sum) / (L : ℝ))

/-- At a fully warmed-up index the rolling window is exactly the trailing
`L` closes. -/
theorem window_eq_map (close : List ℝ) (L i : Nat) (hL : L ≤ i + 1)
    (hi : i < close.length) :
    window close L i = (List.range L).map fun j => close.getD (i + 1 - L + j) 0 := by
  apply List.ext_getElem
  · simp only [window, List.length_drop, List.length_take, List.length_map,
      List.length_range]
    omega
  · intro n h1 h2
    have hn : n < L := by simpa using h2
    have hidx : i + 1 - L + n < close.length := by omega
    simp only [window]
    rw [List.getElem_drop, List.getElem_take, List.getElem_map, List.getElem_range]
    rw [List.getD_eq_getElem close 0 hidx]

/-- The window mean is the spec's arithmetic mean of the trailing closes. -/
theorem listMean_window (close : List ℝ) (L i : Nat) (hL : L ≤ i + 1)
    (hi : i < close.length) :
    listMean (window close L i) = specMean close L i := by
  rw [window_eq_map close L i hL hi]
  unfold listMean specMean
  rw [List.length_map, List.length_range]

/-- The window population standard deviation is the spec's formula. -/
theorem listStdPop_window (close : List ℝ) (L i : Nat) (hL : L ≤ i + 1)
    (hi : i < close.length) :
    listStdPop (window close L i) = specStd close L i := by
  have hm : listMean ((List.range L).map fun j => close.getD (i + 1 - L + j) 0)
      = specMean close L i := by
    unfold listMean specMean
    rw [List.length_map, List.length_range]
  unfold listStdPop listVarPop specStd
  rw [window_eq_map close L i hL hi, hm, List.map_map, List.length_map, List.length_range]
  simp [Function.comp_def]

/-- Entry `i` of the rolling mean series, for `i` in range. -/
theorem rollingMean_getElem (close : List ℝ) (L : Nat) {i : Nat} (hi : i < close.length) :
    (rollingMean close L)[i]? =
      some (if L ≤ i + 1 then some (listMean (window close L i)) else none) := by
  unfold rollingMean
  rw [List.getElem?_map, List.getElem?_range hi]
  rfl

/-- Entry `i` of the rolling standard-deviation series, for `i` in range. -/
theorem rollingStd_getElem (close : List ℝ) (L : Nat) {i : Nat} (hi : i < close.length) :
    (rollingStd close L)[i]? =
      some (if L ≤ i + 1 then some (listStdPop (window close L i)) else none) := by
  unfold rollingStd
  rw [List.getElem?_map, List.getElem?_range hi]
  rfl

/-- The basis series of `compute_bb` is the rolling mean. -/
theorem compute_bb_basis (close : List ℝ) (L : Nat) (M : ℝ) :
    (compute_bb close L M).1 = rollingMean close L := rfl

/-- Entry `i` of the upper band series. -/
theorem compute_bb_upper_getElem (close : List ℝ) (L : Nat) (M : ℝ) {i : Nat}
    (hi : i < close.length) :
    (compute_bb close L M).2.1[i]? =
      some (if L ≤ i + 1 then
        some (listMean (window close L i) + M * listStdPop (window close L i))
      else none) := by
  show (List.zipWith _ (rollingMean close L) (rollingStd close L))[i]? = _
  rw [List.getElem?_zipWith, rollingMean_getElem close L hi, rollingStd_getElem close L hi]
  by_cases hc : L ≤ i + 1 <;> simp [hc]

/-- Entry `i` of the lower band series. -/
theorem compute_bb_lower_getElem (close : List ℝ) (L : Nat) (M : ℝ) {i : Nat}
    (hi : i < close.length) :
    (compute_bb close L M).2.2[i]? =
      some (if L ≤ i + 1 then
        some (listMean (window close L i) - M * listStdPop (window close L i))
      else none) := by
  show (List.zipWith _ (rollingMean close L) (rollingStd close L))[i]? = _
  rw [List.getElem?_zipWith, rollingMean_getElem close L hi, rollingStd_getElem close L hi]
  by_cases hc : L ≤ i + 1 <;> simp [hc]

/-- With a nonnegative multiplier, a defined lower band never exceeds the
defined upper band at the same index (bands do not invert). -/
theorem compute_bb_lower_le_upper (close : List ℝ) (L : Nat) (M : ℝ) (hM : 0 ≤ M)
    {i : Nat} (hi : i < close.length) {u l : ℝ}
    (hu : (compute_bb close L M).2.1[i]? = some (some u))
    (hl : (compute_bb close L M).2.2[i]? = some (some l)) : l ≤ u := by
  rw [compute_bb_upper_getElem close L M hi] at hu
  rw [compute_bb_lower_getElem close L M hi] at hl
  by_cases hc : L ≤ i + 1
  · rw [if_pos hc] at hu hl
    have hs : 0 ≤ listStdPop (window close L i) := Real.sqrt_nonneg _
    have hu' : u = listMean (window close L i) + M * listStdPop (window close L i) := by
      simpa using hu.symm
    have hl' : l = listMean (window close L i) - M * listStdPop (window close L i) := by
      simpa using hl.symm
    subst hu'; subst hl'
    nlinarith
  · rw [if_neg hc] at hu
    simp at hu

/-- C2: for a positive window length `L` and positive multiplier `M`, each
index `i` with at least `L` bars in `[i-L+1, i]` carries basis equal to the
arithmetic mean of the trailing `L` closes, stdev equal to the population
standard deviation (divide by `L`) of the same window, and
`upper = basis + M*stdev`, `lower = basis - M*stdev`; an index with fewer
than `L` bars in its window carries no value in any of the four series. -/
theorem compute_bb_spec (close : List ℝ) (L : Nat) (M : ℝ)
    (hL : 0 < L) (hM : 0 < M) (i : Nat) (hi : i < close.length) :
    (L ≤ i + 1 →
      (compute_bb close L M).1[i]? = some (some (specMean close L i))
      ∧ (rollingStd close L)[i]? = some (some (specStd close L i))
      ∧ (compute_bb close L M).2.1[i]? =
          some (some (specMean close L i + M * specStd close L i))
      ∧ (compute_bb close L M).2.2[i]? =
          some (some (specMean close L i - M * specStd close L i)))
    ∧ (i + 1 < L →
      (compute_bb close L M).1[i]? = some none
      ∧ (rollingStd close L)[i]? = some none
      ∧ (compute_bb close L M).2.1[i]? = some none
      ∧ (compute_bb close L M).2.2[i]? = some none) := by
  constructor
  · intro hwarm
    rw [compute_bb_basis, rollingMean_getElem close L hi, rollingStd_getElem close L hi,
      compute_bb_upper_getElem close L M hi, compute_bb_lower_getElem close L M hi,
      if_pos hwarm, if_pos hwarm, if_pos hwarm, if_pos hwarm,
      listMean_window close L i hwarm hi, listStdPop_window close L i hwarm hi]
    exact ⟨rfl, rfl, rfl, rfl⟩
  · intro hcold
    have hc : ¬ L ≤ i + 1 := by omega
    rw [compute_bb_basis, rollingMean_getElem close L hi, rollingStd_getElem close L hi,
      compute_bb_upper_getElem close L M hi, compute_bb_lower_getElem close L M hi,
      if_neg hc, if_neg hc, if_neg hc, if_neg hc]
    exact ⟨rfl, rfl, rfl, rfl⟩

/-- C2 witness: closes `[1, 2, 3]`, `L = 2`, `M = 1`, index `1` (warmed) and
index `0` (inside warm-up). -/
theorem compute_bb_spec_witness :
    ((compute_bb [1, 2, 3] 2 1).1[1]? = some (some (specMean [1, 2, 3] 2 1))
      ∧ (rollingStd [1, 2, 3] 2)[1]? = some (some (specStd [1, 2, 3] 2 1))
      ∧ (compute_bb [1, 2, 3] 2 1).2.1[1]? =
          some (some (specMean [1, 2, 3] 2 1 + 1 * specStd [1, 2, 3] 2 1))
      ∧ (compute_bb [1, 2, 3] 2 1).2.2[1]? =
          some (some (specMean [1, 2, 3] 2 1 - 1 * specStd [1, 2, 3] 2 1)))
    ∧ ((compute_bb [1, 2, 3] 2 1).1[0]? = some none
      ∧ (rollingStd [1, 2, 3] 2)[0]? = some none
      ∧ (compute_bb [1, 2, 3] 2 1).2.1[0]? = some none
      ∧ (compute_bb [1, 2, 3] 2 1).2.2[0]? = some none) :=
  ⟨(compute_bb_spec [1, 2, 3] 2 1 (by norm_num) (by norm_num) 1 (by norm_num)).1
      (by norm_num),
    (compute_bb_spec [1, 2, 3] 2 1 (by norm_num) (by norm_num) 0 (by norm_num)).2
      (by norm_num)⟩

/-! ## Claim C5: short series -/

/-- The row `assign_bands` builds at index `i`, in closed form. -/
noncomputable def bandRow (bars : List (String × ℝ)) (L : Nat) (M : ℝ) (i : Nat) : RawRow where
  ts := (bars.getD i ("", 0)).1
  close := (bars.getD i ("", 0)).2
  basis := if L ≤ i + 1 then some (listMean (window (bars.map Prod.snd) L i)) else none
  upper := if L ≤ i + 1 then
      some (listMean (window (bars.map Prod.snd) L i)
        + M * listStdPop (window (bars.map Prod.snd) L i)) else none
  lower := if L ≤ i + 1 then
      some (listMean (window (bars.map Prod.snd) L i)
        - M * listStdPop (window (bars.map Prod.snd) L i)) else none

/-- The upper band series in closed form, as a map over indices. -/
theorem compute_bb_upper_eq_map (close : List ℝ) (L : Nat) (M : ℝ) :
    (compute_bb close L M).2.1 = (List.range close.length).map fun i =>
      if L ≤ i + 1 then
        some (listMean (window close L i) + M * listStdPop (window close L i))
      else none := by
  show List.zipWith _ (rollingMean close L) (rollingStd close L) = _
  unfold rollingMean rollingStd
  rw [List.zipWith_map, List.zipWith_same]
  apply List.map_congr_left
  intro i _
  by_cases hc : L ≤ i + 1 <;> simp [hc]

/-- The lower band series in closed form, as a map over indices. -/
theorem compute_bb_lower_eq_map (close : List ℝ) (L : Nat) (M : ℝ) :
    (compute_bb close L M).2.2 = (List.range close.length).map fun i =>
      if L ≤ i + 1 then
        some (listMean (window close L i) - M * listStdPop (window close L i))
      else none := by
  show List.zipWith _ (rollingMean close L) (rollingStd close L) = _
  unfold rollingMean rollingStd
  rw [List.zipWith_map, List.zipWith_same]
  apply List.map_congr_left
  intro i _
  by_cases hc : L ≤ i + 1 <;> simp [hc]

/-- Rows of `assign_bands` in closed form: one `bandRow` per bar index. -/
theorem assign_bands_eq (bars : List (String × ℝ)) (L : Nat) (M : ℝ) :
    assign_bands bars L M = (List.range bars.length).map (bandRow bars L M) := by
  have hb : (compute_bb (bars.map Prod.snd) L M).1
      = (List.range bars.length).map fun i =>
        if L ≤ i + 1 then some (listMean (window (bars.map Prod.snd) L i)) else none := by
    rw [compute_bb_basis]
    unfold rollingMean
    rw [List.length_map]
  have hu := compute_bb_upper_eq_map (bars.map Prod.snd) L M
  have hl := compute_bb_lower_eq_map (bars.map Prod.snd) L M
  rw [List.length_map] at hu hl
  simp only [assign_bands]
  rw [hb, hu, hl, List.zip_map', List.zip_map']
  apply List.ext_getElem
  · simp
  · intro n h1 h2
    have hn : n < bars.length := by simpa using h2
    rw [List.getElem_zipWith, List.getElem_map, List.getElem_map, List.getElem_range]
    unfold bandRow
    rw [List.getD_eq_getElem bars ("", 0) hn]

/-- A `filterMap` of an if-some-else-none function is a map over the filter. -/
theorem filterMap_ite {β : Type} (p : Nat → Prop) [DecidablePred p] (g : Nat → β)
    (l : List Nat) :
    (l.filterMap fun i => if p i then some (g i) else none)
      = (l.filter fun i => decide (p i)).map g := by
  induction l with
  | nil => rfl
  | cons a l ih => by_cases h : p a <;> simp [h, ih]

/-- The surviving rows after `dropna`: one per warmed-up index, in order. -/
theorem dropna_assign (bars : List (String × ℝ)) (L : Nat) (M : ℝ) :
    dropna (assign_bands bars L M)
      = (((List.range bars.length).filter fun i => decide (L ≤ i + 1)).map fun i =>
          ⟨(bars.getD i ("", 0)).1, (bars.getD i ("", 0)).2,
            listMean (window (bars.map Prod.snd) L i),
            listMean (window (bars.map Prod.snd) L i)
              + M * listStdPop (window (bars.map Prod.snd) L i),
            listMean (window (bars.map Prod.snd) L i)
              - M * listStdPop (window (bars.map Prod.snd) L i)⟩) := by
  rw [assign_bands_eq]
  unfold dropna
  rw [List.filterMap_map]
  refine Eq.trans (List.filterMap_congr ?_) (filterMap_ite (fun i => L ≤ i + 1) _ _)
  intro i _
  by_cases h : L ≤ i + 1 <;> simp [bandRow, h, Function.comp]

/-- How many indices below `n` are past the warm-up. -/
theorem length_filter_range_warm (n L : Nat) :
    ((List.range n).filter fun i => decide (L ≤ i + 1)).length = n - (L - 1) := by
  induction n with
  | zero => simp
  | succ n ih =>
    rw [List.range_succ, List.filter_append]
    by_cases h : L ≤ n + 1 <;> simp [h, ih] <;> omega

/-- The number of defined banded rows. -/
theorem dropna_assign_length (bars : List (String × ℝ)) (L : Nat) (M : ℝ) :
    (dropna (assign_bands bars L M)).length = bars.length - (L - 1) := by
  rw [dropna_assign, List.length_map, length_filter_range_warm]

/-- C5 as frozen fails at the boundary: two bars and `L = 2` is a series
with fewer than `L + 1` bars, yet the band calculator yields one defined
banded-bar entry, not zero. -/
theorem short_series_counterexample :
    ([("t0", (1:ℝ)), ("t1", 2)].length < 2 + 1)
    ∧ (dropna (assign_bands [("t0", (1:ℝ)), ("t1", 2)] 2 1)).length = 1 := by
  refine ⟨by norm_num, ?_⟩
  rw [dropna_assign_length]
  simp

/-- C5 amended: with fewer than `L+1` bars the calculator yields at most one
defined banded-bar entry (zero when there are fewer than `L` bars), and the
pipeline reports no data or insufficient bars, leaves the ledger untouched,
and runs no detection (no signal outcome, no backfill report). -/
theorem short_series_spec (bars : List (String × ℝ)) (L : Nat) (M : ℝ)
    (hshort : bars.length < L + 1) :
    (dropna (assign_bands bars L M)).length ≤ 1
    ∧ (bars.length < L → (dropna (assign_bands bars L M)).length = 0)
    ∧ ∀ conn symbol bl loose dry wok,
        ((process_symbol conn symbol bars L M bl loose dry wok).outcome = Outcome.noData
          ∨ (process_symbol conn symbol bars L M bl loose dry wok).outcome
              = Outcome.insufficientBars)
        ∧ (process_symbol conn symbol bars L M bl loose dry wok).ledger = conn
        ∧ (process_symbol conn symbol bars L M bl loose dry wok).backfill_report = none := by
  have hlen := dropna_assign_length bars L M
  refine ⟨by omega, fun h => by omega, ?_⟩
  intro conn symbol bl loose dry wok
  simp only [process_symbol]
  split
  · exact ⟨Or.inl rfl, rfl, rfl⟩
  · split
    · exact ⟨Or.inr rfl, rfl, rfl⟩
    · rename_i hemp hlen2
      exact absurd (by omega) hlen2

/-- C5 witness: one bar with `L = 2`: the pipeline skips with the ledger
untouched. -/
theorem short_series_spec_witness :
    ((process_symbol [] "QQQ" [("t0", (1:ℝ))] 2 1 0 false false true).outcome
        = Outcome.noData
      ∨ (process_symbol [] "QQQ" [("t0", (1:ℝ))] 2 1 0 false false true).outcome
        = Outcome.insufficientBars)
    ∧ (process_symbol [] "QQQ" [("t0", (1:ℝ))] 2 1 0 false false true).ledger = []
    ∧ (process_symbol [] "QQQ" [("t0", (1:ℝ))] 2 1 0 false false true).backfill_report
        = none :=
  (short_series_spec [("t0", (1:ℝ))] 2 1 (by norm_num)).2.2 [] "QQQ" 0 false false true

/-! ## Claim C9: flat series produce no signals -/

/-- The mean of a constant window is that constant. -/
theorem listMean_replicate (k : Nat) (c : ℝ) (hk : 0 < k) :
    listMean (List.replicate k c) = c := by
  unfold listMean
  rw [List.sum_replicate, List.length_replicate, nsmul_eq_mul]
  have : (k : ℝ) ≠ 0 := Nat.cast_ne_zero.mpr (by omega)
  field_simp

/-- The population standard deviation of a constant window is zero. -/
theorem listStdPop_replicate (k : Nat) (c : ℝ) (hk : 0 < k) :
    listStdPop (List.replicate k c) = 0 := by
  unfold listStdPop listVarPop
  rw [listMean_replicate k c hk, List.map_replicate, List.sum_replicate]
  simp

/-- On an everywhere-constant close series, each warmed-up window is the
constant window. -/
theorem window_flat (bars : List (String × ℝ)) (c : ℝ) (L i : Nat)
    (hflat : ∀ b ∈ bars, b.2 = c) (hL : L ≤ i + 1) (hi : i < bars.length) :
    window (bars.map Prod.snd) L i = List.replicate L c := by
  have hrep : bars.map Prod.snd = List.replicate bars.length c := by
    have hmem : ∀ x ∈ bars.map Prod.snd, x = c := by
      intro x hx
      rcases List.mem_map.mp hx with ⟨b, hb, hxb⟩
      rw [← hxb]
      exact hflat b hb
    have h := List.eq_replicate_of_mem hmem
    rwa [List.length_map] at h
  unfold window
  rw [hrep, List.take_replicate, List.drop_replicate]
  congr 1
  omega

/-- Every row surviving `dropna` on a flat series has close, basis, upper
and lower all equal to the constant. -/
theorem dropna_flat (bars : List (String × ℝ)) (c : ℝ) (L : Nat) (M : ℝ) (hL : 0 < L)
    (hflat : ∀ b ∈ bars, b.2 = c) :
    ∀ r ∈ dropna (assign_bands bars L M),
      r.close = c ∧ r.basis = c ∧ r.upper = c ∧ r.lower = c := by
  intro r hr
  rw [dropna_assign] at hr
  rcases List.mem_map.mp hr with ⟨i, hi, hrow⟩
  rcases List.mem_filter.mp hi with ⟨hirange, hwarm⟩
  have hi' : i < bars.length := List.mem_range.mp hirange
  have hwarm' : L ≤ i + 1 := of_decide_eq_true hwarm
  have hw := window_flat bars c L i hflat hwarm' hi'
  have hclose : (bars.getD i ("", 0)).2 = c := by
    rw [List.getD_eq_getElem bars ("", 0) hi']
    exact hflat _ (List.getElem_mem hi')
  rw [← hrow, hw, listMean_replicate L c hL, listStdPop_replicate L c hL]
  refine ⟨hclose, rfl, by ring, by ring⟩

/-- No `detect_cross` result when the current close is at or inside its
defined bands, whatever the previous bar was. -/
theorem detect_cross_inside (pc : ℝ) (pu pl : Option ℝ) (cc cu cl : ℝ)
    (h1 : cc ≤ cu) (h2 : cl ≤ cc) :
    detect_cross pc pu pl cc (some cu) (some cl) = none := by
  unfold detect_cross
  have hno1 : ¬ cc > cu := not_lt.mpr h1
  have hno2 : ¬ cc < cl := not_lt.mpr h2
  cases pu <;> cases pl <;> simp [hno1, hno2]

/-- Live classification on a flat current row is silent in both modes. -/
theorem live_signal_flat (prev cur : BRow) (c : ℝ)
    (h1 : cur.close = c) (h2 : cur.upper = c) (h3 : cur.lower = c) (loose : Bool) :
    live_signal prev cur loose = none := by
  unfold live_signal
  rw [detect_cross_inside _ _ _ _ _ _ (le_of_eq (h1.trans h2.symm))
    (le_of_eq (h3.trans h1.symm))]
  cases loose <;> simp [h1, h2, h3]

/-- The backfill scan of rows that are all flat reports nothing. -/
theorem backfill_scan_flat (sub : List BRow) (c : ℝ)
    (h : ∀ r ∈ sub, r.close = c ∧ r.upper = c ∧ r.lower = c) :
    backfill_scan sub = none := by
  rw [backfill_scan, backfill_aux_or, Option.or_none]
  rw [List.findSome?_eq_none_iff]
  intro pc hpc
  rcases List.of_mem_zip (List.mem_reverse.mp hpc) with ⟨hp1, hp2⟩
  have hp2' : pc.2 ∈ sub := List.tail_subset sub hp2
  obtain ⟨hc2, hu2, hl2⟩ := h pc.2 hp2'
  rw [detect_cross_inside _ _ _ _ _ _ (le_of_eq (hc2.trans hu2.symm))
    (le_of_eq (hl2.trans hc2.symm))]
  rfl

/-- C9: on a series whose closes are the constant `c` throughout: every
warmed index carries stdev 0 and basis = upper = lower = c, and a pipeline
pass never produces any crossing signal, strict or loose (the outcome is
no-data, insufficient bars, or no-signal), leaves the ledger untouched, and
even the backfill diagnostic reports nothing. -/
theorem flat_series_spec (bars : List (String × ℝ)) (c : ℝ) (L : Nat) (M : ℝ)
    (hL : 0 < L) (hflat : ∀ b ∈ bars, b.2 = c) :
    (∀ i, i < bars.length → L ≤ i + 1 →
      (compute_bb (bars.map Prod.snd) L M).1[i]? = some (some c)
      ∧ (rollingStd (bars.map Prod.snd) L)[i]? = some (some 0)
      ∧ (compute_bb (bars.map Prod.snd) L M).2.1[i]? = some (some c)
      ∧ (compute_bb (bars.map Prod.snd) L M).2.2[i]? = some (some c))
    ∧ ∀ conn symbol bl loose dry wok,
        (process_symbol conn symbol bars L M bl loose dry wok).ledger = conn
        ∧ ((process_symbol conn symbol bars L M bl loose dry wok).outcome = Outcome.noData
          ∨ (process_symbol conn symbol bars L M bl loose dry wok).outcome
              = Outcome.insufficientBars
          ∨ (process_symbol conn symbol bars L M bl loose dry wok).outcome
              = Outcome.noSignal)
        ∧ (process_symbol conn symbol bars L M bl loose dry wok).backfill_report = none := by
  have hdf := dropna_flat bars c L M hL hflat
  constructor
  · intro i hi hwarm
    have hi' : i < (bars.map Prod.snd).length := by simpa using hi
    have hw := window_flat bars c L i hflat hwarm hi
    rw [compute_bb_basis, rollingMean_getElem _ _ hi', rollingStd_getElem _ _ hi',
      compute_bb_upper_getElem _ _ _ hi', compute_bb_lower_getElem _ _ _ hi',
      if_pos hwarm, if_pos hwarm, if_pos hwarm, if_pos hwarm, hw,
      listMean_replicate L c hL, listStdPop_replicate L c hL]
    norm_num
  · intro conn symbol bl loose dry wok
    simp only [process_symbol]
    split
    · exact ⟨rfl, Or.inl rfl, rfl⟩
    · split
      · exact ⟨rfl, Or.inr (Or.inl rfl), rfl⟩
      · rename_i hemp hlen2
        have hbf : (if 0 < bl then
            backfill_scan (tail_n (dropna (assign_bands bars L M)) (max 2 bl))
          else none) = none := by
          split
          · apply backfill_scan_flat _ c
            intro r hr
            have hr' : r ∈ dropna (assign_bands bars L M) :=
              List.drop_subset _ _ hr
            obtain ⟨h1, _, h3, h4⟩ := hdf r hr'
            exact ⟨h1, h3, h4⟩
          · rfl
        have hcurmem : (dropna (assign_bands bars L M)).getD
            ((dropna (assign_bands bars L M)).length - 1) default
            ∈ dropna (assign_bands bars L M) := by
          rw [List.getD_eq_getElem _ _ (by omega)]
          exact List.getElem_mem _
        obtain ⟨hc2, _, hu2, hl2⟩ := hdf _ hcurmem
        rw [live_signal_flat _ _ c hc2 hu2 hl2 loose]
        exact ⟨rfl, Or.inr (Or.inr rfl), hbf⟩

/-- C9 witness: a two-bar flat series at close 5 with `L = 1`. -/
theorem flat_series_spec_witness :
    (process_symbol [] "SPY" [("t0", (5:ℝ)), ("t1", 5)] 1 2 0 false false true).ledger = []
    ∧ ((process_symbol [] "SPY" [("t0", (5:ℝ)), ("t1", 5)] 1 2 0 false false true).outcome
          = Outcome.noData
      ∨ (process_symbol [] "SPY" [("t0", (5:ℝ)), ("t1", 5)] 1 2 0 false false true).outcome
          = Outcome.insufficientBars
      ∨ (process_symbol [] "SPY" [("t0", (5:ℝ)), ("t1", 5)] 1 2 0 false false true).outcome
          = Outcome.noSignal)
    ∧ (process_symbol [] "SPY" [("t0", (5:ℝ)), ("t1", 5)] 1 2 0 false false
        true).backfill_report = none :=
  (flat_series_spec [("t0", (5:ℝ)), ("t1", 5)] 5 1 2 (by norm_num)
    (by
      intro b hb
      simp only [List.mem_cons, List.not_mem_nil, or_false] at hb
      rcases hb with rfl | rfl <;> norm_num)).2 [] "SPY" 0 false false true

end BBBot
